import Mathlib

/-!
stancat: mode dispatch and stream framing.

A shallow embedding of `stancat.go` (functions `cmdLine`, `cat`, `main`) together with the
parts of the Go standard library the program relies on (`strings.Join`,
`strings.ContainsAny`, `bufio.Scanner` with the `ScanLines` split function,
`ioutil.ReadAll`, `fmt.Println`, `bytes.Buffer.WriteTo`).

Go strings and byte slices are both modelled as lists of bytes, so the conversions
`[]byte(s)` and `string(b)` are the identity.  The process is modelled by the trace of the
calls it makes on its collaborators (transport, standard input, standard output, logger)
and by the way it ends.
-/

namespace Stancat

/-- One octet. -/
abbrev Byte := UInt8

/-- Go `string` and `[]byte` values. -/
abbrev Bytes := List Byte

/-- Line feed, the byte `'\n'`. -/
def LF : Byte := 10

/-- Carriage return, the byte `'\r'`. -/
def CR : Byte := 13

/-- The byte `' '`. -/
def SP : Byte := 32

/-- The byte `'*'`. -/
def STAR : Byte := 42

/-- The byte `'>'`. -/
def GT : Byte := 62

/-! ## Library functions used by the program -/

/-- Go `strings.Join(elems, sep)`. -/
def Join : List Bytes → Bytes → Bytes
  | [], _ => []
  | [a], _ => a
  | a :: b :: rest, sep => a ++ sep ++ Join (b :: rest) sep

/-- Go `strings.ContainsAny(s, chars)` for a set `chars` of ASCII characters: some byte of
`s` is one of `chars`. -/
def ContainsAny (s chars : Bytes) : Bool :=
  s.any (fun b => chars.contains b)

/-- Go `bytes.IndexByte(data, c)`: the index of the first `c` in `data`, `none` standing for
the result `-1`. -/
def IndexByte : Bytes → Byte → Option Nat
  | [], _ => none
  | b :: rest, c =>
    if b = c then some 0
    else match IndexByte rest c with
      | some i => some (i + 1)
      | none => none

/-- Go `bufio.dropCR`: drop one terminal carriage return. -/
def dropCR (data : Bytes) : Bytes :=
  if data.getLast? = some CR then data.dropLast else data

/-- Go `bufio.ScanLines(data, atEOF)`: the number of bytes to advance and the token, `none`
standing for a `nil` token (no token yet). -/
def ScanLines (data : Bytes) (atEOF : Bool) : Nat × Option Bytes :=
  if atEOF && data.length == 0 then (0, none)
  else match IndexByte data LF with
    | some i => (i + 1, some (dropCR (data.take i)))
    | none => if atEOF then (data.length, some (dropCR data)) else (0, none)

/-- Go `bufio.MaxScanTokenSize`. -/
def MaxScanTokenSize : Nat := 64 * 1024

/-- Errors a `bufio.Scanner` records. -/
inductive ScanError
  | ErrTooLong
  deriving DecidableEq, Repr

/-- A `bufio.Scanner` reading from a finite input without read errors.  `r` holds the
bytes not yet consumed as tokens (those already in the scanner's buffer and those still in
the reader). -/
structure Scanner where
  r : Bytes
  maxTokenSize : Nat
  token : Bytes
  err : Option ScanError
  deriving DecidableEq, Repr

/-- Go `bufio.NewScanner(r)`. -/
def NewScanner (r : Bytes) : Scanner :=
  { r := r, maxTokenSize := MaxScanTokenSize, token := [], err := none }

/-- Go `(*Scanner).Scan`, first call or call after a successful one.  The scanner's buffer
grows to at most `maxTokenSize` bytes, so the split function sees at most the first
`maxTokenSize` unconsumed bytes; the end of the input is observed only by a read into
free buffer space, that is when fewer than `maxTokenSize` bytes remain.  When the buffer
is full and holds no token the scanner records `ErrTooLong` and returns `false`. -/
def Scanner.Scan (s : Scanner) : Bool × Scanner :=
  let data := s.r.take s.maxTokenSize
  let atEOF := decide (s.r.length < s.maxTokenSize)
  match ScanLines data atEOF with
  | (advance, some token) => (true, { s with r := s.r.drop advance, token := token })
  | (_, none) =>
    if atEOF then (false, { s with r := [], token := [] })
    else (false, { s with token := [], err := some ScanError.ErrTooLong })

/-- Go `(*Scanner).Text`. -/
def Scanner.Text (s : Scanner) : Bytes := s.token

/-- Go `ioutil.ReadAll(os.Stdin)` on a finite input without read errors. -/
def ReadAll (stdin : Bytes) : Bytes := stdin

/-- Go `fmt.Println(s)`: the bytes written to standard output. -/
def Println (s : Bytes) : Bytes := s ++ [LF]

/-- Go `bytes.NewBuffer(data).WriteTo(w)`: the bytes written to `w`. -/
def WriteTo (data : Bytes) : Bytes := data

/-! ## Command line -/

/-- What `cli.Context` gives `cmdLine`: the parsed flag values (the string flags have been
stored into the globals through their `Destination`) and the positional arguments. -/
structure Context where
  verbose : Bool
  listen : Bool
  buffered : Bool
  subject : Bytes
  message : Bytes
  serverURL : Bytes
  clusterID : Bytes
  clientID : Bytes
  args : List Bytes
  deriving DecidableEq, Repr

/-- The package-level variables of `stancat.go`. -/
structure Globals where
  listen : Bool
  verbose : Bool
  buffered : Bool
  serverURL : Bytes
  subject : Bytes
  message : Bytes
  clusterID : Bytes
  clientID : Bytes
  deriving DecidableEq, Repr

/-- The two fatal exits of `cmdLine`. -/
inductive CmdError
  | mustSpecifySubject
  | wildcardWhenPublishing
  deriving DecidableEq, Repr

/-- The function `cmdLine`: `Except.ok` carries the globals as left when it returns `nil`,
`Except.error` is a process exit through `log.Fatalf` (or through the help printer, which
exits too). -/
def cmdLine (c : Context) : Except CmdError Globals :=
  let verbose := c.verbose
  let listen := c.listen
  let buffered := c.buffered
  let (message, buffered) :=
    if !listen && c.args.length > 0 then (Join c.args [SP], true) else (c.message, buffered)
  if c.subject = [] then Except.error CmdError.mustSpecifySubject
  else if !listen && ContainsAny c.subject [STAR, GT] then
    Except.error CmdError.wildcardWhenPublishing
  else
    Except.ok { listen := listen, verbose := verbose, buffered := buffered,
                serverURL := c.serverURL, subject := c.subject, message := message,
                clusterID := c.clusterID, clientID := c.clientID }

/-! ## The process -/

/-- A message handed to the subscription callback (`stan.Msg`). -/
structure Msg where
  Subject : Bytes
  Data : Bytes
  deriving DecidableEq, Repr

/-- Diagnostic lines written through `log.Printf` and `log.Println` when `verbose` is set;
their text layout is not modelled. -/
inductive LogMsg
  | connected
  | listening (subject : Bytes) (buffered : Bool)
  | received (subject data : Bytes)
  | receivedBracketed (subject data : Bytes)
  | wroteMessage (subject message : Bytes)
  | wroteLines (subject : Bytes) (count : Nat)
  | wroteBytes (subject : Bytes) (count : Nat)
  deriving DecidableEq, Repr

/-- The calls the process makes on its collaborators. -/
inductive Event
  | natsConnect (serverURL : Bytes)
  | stanConnect (clusterID clientID : Bytes)
  | subscribe (subject : Bytes)
  | publish (subject data : Bytes)
  | scanStdin
  | readAllStdin
  | stdout (data : Bytes)
  | log (msg : LogMsg)
  | lastError
  | close
  deriving DecidableEq, Repr

/-- How a run ends: `returned` is a normal return (deferred calls run, exit status 0),
`fatal` is `log.Fatal`, that is `os.Exit(1)`, which runs no deferred call, `blocked` is the
`select {}` of the listen branch, and `outOfFuel` says that the loop bound of the model was
too small. -/
inductive Exit
  | returned
  | fatal
  | blocked
  | outOfFuel
  deriving DecidableEq, Repr

/-- A run of the process: the calls made, in order, and the way it ends. -/
structure Run where
  trace : List Event
  exit : Exit
  deriving DecidableEq, Repr

/-- The run `r` preceded by the calls `pre`. -/
def Run.after (pre : List Event) (r : Run) : Run :=
  { r with trace := pre ++ r.trace }

/-- The behaviour of the collaborators during one run: the bytes standard input delivers
before its end, whether each transport call succeeds (`publishOk i` for the publish call
number `i`, from zero), and the messages the transport delivers to the subscription. -/
structure Env where
  stdin : Bytes
  natsConnectOk : Bool
  stanConnectOk : Bool
  subscribeOk : Bool
  publishOk : Nat → Bool
  lastErrorNil : Bool
  delivered : List Msg

/-- The callback passed to `sc.Subscribe`, for one message. -/
def onMessage (g : Globals) (m : Msg) : List Event :=
  (if g.verbose then
    [Event.log (LogMsg.received m.Subject m.Data),
     Event.log (LogMsg.receivedBracketed m.Subject m.Data)]
   else []) ++
  (if g.buffered then [Event.stdout (Println m.Data)]
   else if m.Data.length > 0 then [Event.stdout (WriteTo m.Data)] else [])

/-- The loop `for scanner.Scan() { ... }` of the buffered branch; `count` is the variable
of that name.  The first argument bounds the number of iterations. -/
def publishLines (g : Globals) (env : Env) : Nat → Scanner → Nat → Run
  | 0, _, _ => { trace := [], exit := Exit.outOfFuel }
  | fuel + 1, scanner, count =>
    match scanner.Scan with
    | (true, scanner) =>
      let line := scanner.Text
      if env.publishOk count then
        (publishLines g env fuel scanner (count + 1)).after
          [Event.scanStdin, Event.publish g.subject line]
      else { trace := [Event.scanStdin, Event.publish g.subject line], exit := Exit.fatal }
    | (false, _) =>
      { trace := [Event.scanStdin] ++
          (if g.verbose then [Event.log (LogMsg.wroteLines g.subject count)] else []),
        exit := Exit.returned }

/-- The `switch` statement of `cat`. -/
def catSwitch (g : Globals) (env : Env) : Run :=
  if g.listen then
    let pre := if g.verbose then [Event.log (LogMsg.listening g.subject g.buffered)] else []
    if env.subscribeOk then
      { trace := pre ++ [Event.subscribe g.subject] ++ (env.delivered.map (onMessage g)).flatten,
        exit := Exit.blocked }
    else { trace := pre ++ [Event.subscribe g.subject], exit := Exit.fatal }
  else if g.message ≠ [] then
    if env.publishOk 0 then
      { trace := [Event.publish g.subject g.message] ++
          (if g.verbose then [Event.log (LogMsg.wroteMessage g.subject g.message)] else []),
        exit := Exit.returned }
    else { trace := [Event.publish g.subject g.message], exit := Exit.fatal }
  else if g.message = [] then
    if g.buffered then
      publishLines g env (env.stdin.length + 1) (NewScanner env.stdin) 0
    else
      let bytes := ReadAll env.stdin
      let count := bytes.length
      if env.publishOk 0 then
        { trace := [Event.readAllStdin, Event.publish g.subject bytes] ++
            (if g.verbose then [Event.log (LogMsg.wroteBytes g.subject count)] else []),
          exit := Exit.returned }
      else { trace := [Event.readAllStdin, Event.publish g.subject bytes], exit := Exit.fatal }
  else { trace := [], exit := Exit.returned }

/-- The function `cat`.  `nc.Close` is deferred right after `nats.Connect` succeeds, so it
runs when `cat` returns and on no other way out. -/
def cat (g : Globals) (env : Env) : Run :=
  if !env.natsConnectOk then { trace := [Event.natsConnect g.serverURL], exit := Exit.fatal }
  else if !env.stanConnectOk then
    { trace := [Event.natsConnect g.serverURL, Event.stanConnect g.clusterID g.clientID],
      exit := Exit.fatal }
  else
    let r := (catSwitch g env).after
      ([Event.natsConnect g.serverURL, Event.stanConnect g.clusterID g.clientID] ++
        (if g.verbose then [Event.log LogMsg.connected] else []))
    match r.exit with
    | Exit.returned =>
      if env.lastErrorNil then { trace := r.trace ++ [Event.lastError, Event.close], exit := Exit.returned }
      else { trace := r.trace ++ [Event.lastError], exit := Exit.fatal }
    | _ => r

/-- The function `main` after flag parsing: `cmdLine` is the action of the application,
and `cat` runs when it returned `nil`. -/
def main (c : Context) (env : Env) : Run :=
  match cmdLine c with
  | Except.error _ => { trace := [], exit := Exit.fatal }
  | Except.ok g => cat g env

/-! ## Observations on a trace -/

/-- The publish calls of a trace, as (subject, payload), in order. -/
def publishes : List Event → List (Bytes × Bytes)
  | [] => []
  | Event.publish s d :: rest => (s, d) :: publishes rest
  | _ :: rest => publishes rest

/-- The subjects of the subscribe calls of a trace, in order. -/
def subscribes : List Event → List Bytes
  | [] => []
  | Event.subscribe s :: rest => s :: subscribes rest
  | _ :: rest => subscribes rest

/-- The bytes written to standard output, in order. -/
def stdoutBytes : List Event → Bytes
  | [] => []
  | Event.stdout d :: rest => d ++ stdoutBytes rest
  | _ :: rest => stdoutBytes rest

/-- The number of reads of standard input (scanner calls and `ReadAll` calls). -/
def stdinReads : List Event → Nat
  | [] => 0
  | Event.scanStdin :: rest => stdinReads rest + 1
  | Event.readAllStdin :: rest => stdinReads rest + 1
  | _ :: rest => stdinReads rest

/-- The number of transport connections opened (`nats.Connect` calls). -/
def opens : List Event → Nat
  | [] => 0
  | Event.natsConnect _ :: rest => opens rest + 1
  | _ :: rest => opens rest

/-- The number of `nc.Close` calls. -/
def closes : List Event → Nat
  | [] => 0
  | Event.close :: rest => closes rest + 1
  | _ :: rest => closes rest

/-- An environment in which every transport call succeeds. -/
def Env.quiet (stdin : Bytes) (delivered : List Msg) : Env :=
  { stdin := stdin, natsConnectOk := true, stanConnectOk := true, subscribeOk := true,
    publishOk := fun _ => true, lastErrorNil := true, delivered := delivered }

/-! ## The wording of the specification -/

/-- The lines of an input, read byte by byte with `cur` the bytes of the line in progress:
a line is ended by a line feed, the line feed and one carriage return right before it are
stripped, and a non-empty unterminated final segment counts as a line.  With
`stripFinal = false` the final segment is taken as it stands; with `stripFinal = true` one
terminal carriage return is stripped from it as well. -/
def linesFrom (stripFinal : Bool) : Bytes → Bytes → List Bytes
  | cur, [] => if cur = [] then [] else [if stripFinal then dropCR cur else cur]
  | cur, b :: rest =>
    if b = LF then dropCR cur :: linesFrom stripFinal [] rest
    else linesFrom stripFinal (cur ++ [b]) rest

/-- The lines `L1..Ln` of an input as the specification words them. -/
def specLines (input : Bytes) : List Bytes := linesFrom false [] input

/-- The lines of an input with a terminal carriage return stripped from an unterminated
final segment too. -/
def strippedLines (input : Bytes) : List Bytes := linesFrom true [] input

/-- Every segment between line feeds (the final, unterminated one included) is shorter
than `max` bytes; `n` is the length of the segment in progress. -/
def fitsFrom (max : Nat) : Nat → Bytes → Bool
  | n, [] => decide (n < max)
  | n, b :: rest =>
    if b = LF then decide (n < max) && fitsFrom max 0 rest else fitsFrom max (n + 1) rest

/-- Every line of the input, terminator excluded, is shorter than `bufio.MaxScanTokenSize`
bytes. -/
def LinesFit (input : Bytes) : Prop := fitsFrom MaxScanTokenSize 0 input = true

instance (input : Bytes) : Decidable (LinesFit input) := by
  unfold LinesFit; exact inferInstance

/-- The input `l1 LF l2 LF .. ln LF`. -/
def encodeLines : List Bytes → Bytes
  | [] => []
  | l :: rest => l ++ LF :: encodeLines rest

/-- The calls one iteration of the buffered publish loop makes for the token `line`. -/
def lineEvents (subject : Bytes) (line : Bytes) : List Event :=
  [Event.scanStdin, Event.publish subject line]

/-- The standard output of the subscription callback of `cat` after the transport
delivered the payloads `ps` on `subject`, in that order. -/
def listenOutput (g : Globals) (ps : List Bytes) : Bytes :=
  stdoutBytes ((ps.map (fun p => onMessage g { Subject := g.subject, Data := p })).flatten)

/-- The four run modes of the specification. -/
inductive Mode
  | Listen
  | PublishExplicit
  | PublishBufferedStdin
  | PublishRawStdin
  deriving DecidableEq, Repr

/-- The selection rule of the specification: `Listen` if the listen flag is set; else
`PublishExplicit` if the message is non-empty; else the stdin modes, split by the buffered
flag. -/
def selectMode (listen : Bool) (message : Bytes) (buffered : Bool) : Mode :=
  if listen then Mode.Listen
  else if message ≠ [] then Mode.PublishExplicit
  else if buffered then Mode.PublishBufferedStdin
  else Mode.PublishRawStdin

/-- The mode a trace shows: the first call that only one branch of the `switch` of `cat`
starts with, a subscribe call (listen branch), a publish call made before any read of
standard input (explicit message branch), a scanner call (buffered stdin branch) or a
`ReadAll` call (raw stdin branch). -/
def observedMode : List Event → Option Mode
  | [] => none
  | Event.subscribe _ :: _ => some Mode.Listen
  | Event.publish _ _ :: _ => some Mode.PublishExplicit
  | Event.scanStdin :: _ => some Mode.PublishBufferedStdin
  | Event.readAllStdin :: _ => some Mode.PublishRawStdin
  | _ :: rest => observedMode rest

/-- The calls of the iteration in which `scanner.Scan` returns `false`. -/
def loopEnd (g : Globals) (count : Nat) : List Event :=
  [Event.scanStdin] ++
    (if g.verbose then [Event.log (LogMsg.wroteLines g.subject count)] else [])

/-- An ideal transport: every published message is delivered, in publish order. -/
def deliver (ps : List (Bytes × Bytes)) : List Msg :=
  ps.map (fun p => { Subject := p.1, Data := p.2 })

/-- The command line `stancat --listen --subject <subject>`. -/
def listenOn (subject : Bytes) : Context :=
  { verbose := false, listen := true, buffered := false, subject := subject, message := [],
    serverURL := [], clusterID := [], clientID := [], args := [] }

/-- Publisher globals: `listen` unset, no verbose logging. -/
def publishTo (subject : Bytes) (buffered : Bool) (message : Bytes) : Globals :=
  { listen := false, verbose := false, buffered := buffered, serverURL := [],
    subject := subject, message := message, clusterID := [], clientID := [] }

/-- Listener globals: `listen` set, no verbose logging. -/
def listenTo (subject : Bytes) (buffered : Bool) : Globals :=
  { listen := true, verbose := false, buffered := buffered, serverURL := [],
    subject := subject, message := [], clusterID := [], clientID := [] }

/-- The command line `stancat --subject <subject> [--buffered] [--message <message>] args`. -/
def publishCmd (subject : Bytes) (buffered : Bool) (message : Bytes) (args : List Bytes) :
    Context :=
  { verbose := false, listen := false, buffered := buffered, subject := subject,
    message := message, serverURL := [], clusterID := [], clientID := [], args := args }

/-- A line of `bufio.MaxScanTokenSize` bytes `'a'`. -/
def longLine : Bytes := List.replicate MaxScanTokenSize 97

/-- An environment in which the connection is established and every publish call fails. -/
def Env.publishFails (stdin : Bytes) : Env :=
  { stdin := stdin, natsConnectOk := true, stanConnectOk := true, subscribeOk := true,
    publishOk := fun _ => false, lastErrorNil := true, delivered := [] }

/-- An environment in which `nats.Connect` succeeds and `stan.Connect` fails. -/
def Env.stanFails (stdin : Bytes) : Env :=
  { stdin := stdin, natsConnectOk := true, stanConnectOk := false, subscribeOk := true,
    publishOk := fun _ => true, lastErrorNil := true, delivered := [] }


/-! ## Lemmas on the library functions -/

theorem IndexByte_of_not_mem (l : Bytes) (c : Byte) (h : c ∉ l) : IndexByte l c = none := by
  induction l with
  | nil => rfl
  | cons b rest ih =>
    have hb : ¬ b = c := fun e => h (by simp [e])
    have hr : c ∉ rest := fun e => h (List.mem_cons_of_mem _ e)
    simp [IndexByte, hb, ih hr]

theorem IndexByte_append_cons (l rest : Bytes) (c : Byte) (h : c ∉ l) :
    IndexByte (l ++ c :: rest) c = some l.length := by
  induction l with
  | nil => simp [IndexByte]
  | cons b l ih =>
    have hb : ¬ b = c := fun e => h (by simp [e])
    have hr : c ∉ l := fun e => h (List.mem_cons_of_mem _ e)
    simp [IndexByte, hb, ih hr]

theorem split_at_first (c : Byte) (r : Bytes) :
    c ∉ r ∨ ∃ l rest, r = l ++ c :: rest ∧ c ∉ l := by
  by_cases h : c ∈ r
  · exact Or.inr (List.eq_append_cons_of_mem h)
  · exact Or.inl h

theorem Scan_line (s : Scanner) (l rest : Bytes) (hr : s.r = l ++ LF :: rest)
    (hl : LF ∉ l) (hlen : l.length < s.maxTokenSize) :
    s.Scan = (true, { s with r := rest, token := dropCR l }) := by
  have htake : s.r.take s.maxTokenSize
      = l ++ LF :: rest.take (s.maxTokenSize - l.length - 1) := by
    rw [hr, List.take_append_eq_append_take, List.take_of_length_le (Nat.le_of_lt hlen)]
    obtain ⟨k, hk⟩ : ∃ k, s.maxTokenSize - l.length = k + 1 := ⟨s.maxTokenSize - l.length - 1, by omega⟩
    rw [hk, List.take_succ_cons]
    simp
  unfold Scanner.Scan
  simp only [htake, ScanLines, IndexByte_append_cons _ _ _ hl]
  simp [hr]

theorem Scan_final (s : Scanner) (hl : LF ∉ s.r) (hne : s.r ≠ [])
    (hlen : s.r.length < s.maxTokenSize) :
    s.Scan = (true, { s with r := [], token := dropCR s.r }) := by
  have htake : s.r.take s.maxTokenSize = s.r := List.take_of_length_le (Nat.le_of_lt hlen)
  unfold Scanner.Scan
  simp only [htake, ScanLines, IndexByte_of_not_mem _ _ hl]
  simp [hlen, hne]

theorem Scan_eof (s : Scanner) (hr : s.r = []) (hpos : 0 < s.maxTokenSize) :
    (s.Scan).1 = false := by
  unfold Scanner.Scan
  simp [hr, ScanLines, hpos]

theorem Scan_too_long (s : Scanner) (hlen : s.maxTokenSize ≤ s.r.length)
    (hl : LF ∉ s.r.take s.maxTokenSize) :
    (s.Scan).1 = false := by
  unfold Scanner.Scan
  have : ¬ s.r.length < s.maxTokenSize := by omega
  simp [ScanLines, IndexByte_of_not_mem _ _ hl, this]

/-! ## Lemmas on the wording of the specification -/

theorem linesFrom_line (sf : Bool) (l rest : Bytes) (hl : LF ∉ l) (cur : Bytes) :
    linesFrom sf cur (l ++ LF :: rest) = dropCR (cur ++ l) :: linesFrom sf [] rest := by
  induction l generalizing cur with
  | nil => simp [linesFrom]
  | cons b l ih =>
    have hb : ¬ b = LF := fun e => hl (by simp [e])
    have hr : LF ∉ l := fun e => hl (List.mem_cons_of_mem _ e)
    simp [linesFrom, hb, ih hr]

theorem linesFrom_final (sf : Bool) (l : Bytes) (hl : LF ∉ l) (cur : Bytes) :
    linesFrom sf cur l
      = if cur ++ l = [] then [] else [if sf then dropCR (cur ++ l) else cur ++ l] := by
  induction l generalizing cur with
  | nil => simp [linesFrom]
  | cons b l ih =>
    have hb : ¬ b = LF := fun e => hl (by simp [e])
    have hr : LF ∉ l := fun e => hl (List.mem_cons_of_mem _ e)
    simp [linesFrom, hb, ih hr]

theorem fitsFrom_line (max : Nat) (l rest : Bytes) (hl : LF ∉ l) (n : Nat) :
    fitsFrom max n (l ++ LF :: rest) = (decide (n + l.length < max) && fitsFrom max 0 rest) := by
  induction l generalizing n with
  | nil => simp [fitsFrom]
  | cons b l ih =>
    have hb : ¬ b = LF := fun e => hl (by simp [e])
    have hr : LF ∉ l := fun e => hl (List.mem_cons_of_mem _ e)
    simp [fitsFrom, hb, ih hr, Nat.add_assoc, Nat.add_comm 1]

theorem fitsFrom_final (max : Nat) (l : Bytes) (hl : LF ∉ l) (n : Nat) :
    fitsFrom max n l = decide (n + l.length < max) := by
  induction l generalizing n with
  | nil => simp [fitsFrom]
  | cons b l ih =>
    have hb : ¬ b = LF := fun e => hl (by simp [e])
    have hr : LF ∉ l := fun e => hl (List.mem_cons_of_mem _ e)
    simp [fitsFrom, hb, ih hr, Nat.add_assoc, Nat.add_comm 1]

/-! ## The buffered publish loop -/

theorem publishLines_token (g : Globals) (env : Env) (fuel : Nat) (s s1 : Scanner)
    (count : Nat) (hs : s.Scan = (true, s1)) (hok : env.publishOk count = true) :
    publishLines g env (fuel + 1) s count
      = (publishLines g env fuel s1 (count + 1)).after (lineEvents g.subject s1.token) := by
  simp [publishLines, hs, hok, lineEvents, Scanner.Text]

theorem publishLines_stop (g : Globals) (env : Env) (fuel : Nat) (s : Scanner)
    (count : Nat) (hs : (s.Scan).1 = false) :
    publishLines g env (fuel + 1) s count
      = { trace := loopEnd g count, exit := Exit.returned } := by
  rcases h : s.Scan with ⟨b, s1⟩
  rw [h] at hs
  simp only at hs
  subst hs
  simp [publishLines, h, loopEnd]

theorem publishLines_fit (g : Globals) (env : Env) (hok : ∀ i, env.publishOk i = true) :
    ∀ (n fuel : Nat) (s : Scanner) (count : Nat), s.r.length ≤ n → n < fuel →
      fitsFrom s.maxTokenSize 0 s.r = true →
      publishLines g env fuel s count
        = { trace := ((linesFrom true [] s.r).map (lineEvents g.subject)).flatten ++
              loopEnd g (count + (linesFrom true [] s.r).length),
            exit := Exit.returned } := by
  intro n
  induction n with
  | zero =>
    intro fuel s count hn hf hfit
    obtain ⟨k, rfl⟩ : ∃ k, fuel = k + 1 := ⟨fuel - 1, by omega⟩
    have hr : s.r = [] := List.eq_nil_of_length_eq_zero (by omega)
    have hpos : 0 < s.maxTokenSize := by simpa [hr, fitsFrom] using hfit
    rw [publishLines_stop g env k s count (Scan_eof s hr hpos)]
    simp [hr, linesFrom]
  | succ n ih =>
    intro fuel s count hn hf hfit
    obtain ⟨k, rfl⟩ : ∃ k, fuel = k + 1 := ⟨fuel - 1, by omega⟩
    rcases split_at_first LF s.r with hl | ⟨l, rest, hr, hl⟩
    · rw [fitsFrom_final _ _ hl] at hfit
      have hlen : s.r.length < s.maxTokenSize := by simpa using hfit
      by_cases hne : s.r = []
      · rw [publishLines_stop g env k s count (Scan_eof s hne (by omega))]
        simp [hne, linesFrom]
      · rw [publishLines_token g env k s _ count (Scan_final s hl hne hlen) (hok count)]
        rw [ih k { s with r := [], token := dropCR s.r } (count + 1) (by simp) (by omega)
          (by simp [fitsFrom]; omega)]
        simp [linesFrom_final true _ hl, hne, linesFrom, Run.after, Nat.add_comm 1]
    · rw [hr, fitsFrom_line _ _ _ hl] at hfit
      simp only [Nat.zero_add, Bool.and_eq_true, decide_eq_true_eq] at hfit
      have hlr : rest.length ≤ n := by
        have := congrArg List.length hr
        simp at this; omega
      rw [publishLines_token g env k s _ count (Scan_line s l rest hr hl hfit.1) (hok count)]
      rw [ih k { s with r := rest, token := dropCR l } (count + 1) hlr (by omega) hfit.2]
      simp [hr, linesFrom_line true _ _ hl, Run.after, Nat.add_comm 1, Nat.add_assoc]

/-! ## Observations on traces -/

theorem publishes_append (a b : List Event) :
    publishes (a ++ b) = publishes a ++ publishes b := by
  induction a with
  | nil => rfl
  | cons e a ih => cases e <;> simp [publishes, ih]

theorem subscribes_append (a b : List Event) :
    subscribes (a ++ b) = subscribes a ++ subscribes b := by
  induction a with
  | nil => rfl
  | cons e a ih => cases e <;> simp [subscribes, ih]

theorem stdoutBytes_append (a b : List Event) :
    stdoutBytes (a ++ b) = stdoutBytes a ++ stdoutBytes b := by
  induction a with
  | nil => rfl
  | cons e a ih => cases e <;> simp [stdoutBytes, ih]

theorem stdinReads_append (a b : List Event) :
    stdinReads (a ++ b) = stdinReads a + stdinReads b := by
  induction a with
  | nil => simp [stdinReads]
  | cons e a ih => cases e <;> simp [stdinReads, ih]; all_goals omega

theorem opens_append (a b : List Event) : opens (a ++ b) = opens a + opens b := by
  induction a with
  | nil => simp [opens]
  | cons e a ih => cases e <;> simp [opens, ih]; all_goals omega

theorem closes_append (a b : List Event) : closes (a ++ b) = closes a + closes b := by
  induction a with
  | nil => simp [closes]
  | cons e a ih => cases e <;> simp [closes, ih]; all_goals omega

theorem publishes_onMessage (g : Globals) (m : Msg) : publishes (onMessage g m) = [] := by
  unfold onMessage
  rw [publishes_append]
  by_cases hv : g.verbose = true <;> by_cases hb : g.buffered = true <;>
    by_cases hd : m.Data.length > 0 <;> simp [publishes, hv, hb, hd]

theorem publishes_callbacks (g : Globals) (ms : List Msg) :
    publishes ((ms.map (onMessage g)).flatten) = [] := by
  induction ms with
  | nil => rfl
  | cons m ms ih => simp [publishes_append, publishes_onMessage, ih]

theorem subscribes_publishLines (g : Globals) (env : Env) :
    ∀ (fuel : Nat) (s : Scanner) (count : Nat),
      subscribes (publishLines g env fuel s count).trace = [] := by
  intro fuel
  induction fuel with
  | zero => intro s count; rfl
  | succ fuel ih =>
    intro s count
    rcases h : s.Scan with ⟨b, s1⟩
    cases b
    · rw [publishLines_stop g env fuel s count (by rw [h])]
      by_cases hv : g.verbose = true <;> simp [loopEnd, subscribes, hv]
    · by_cases hok : env.publishOk count = true
      · rw [publishLines_token g env fuel s s1 count h hok]
        simp [Run.after, lineEvents, subscribes, ih]
      · simp [publishLines, h, hok, subscribes]

theorem observedMode_publishLines (g : Globals) (env : Env) (fuel : Nat) (s : Scanner)
    (count : Nat) :
    ∃ rest, (publishLines g env (fuel + 1) s count).trace = Event.scanStdin :: rest := by
  rcases h : s.Scan with ⟨b, s1⟩
  cases b
  · rw [publishLines_stop g env fuel s count (by rw [h])]
    exact ⟨_, rfl⟩
  · by_cases hok : env.publishOk count = true
    · rw [publishLines_token g env fuel s s1 count h hok]
      exact ⟨_, rfl⟩
    · simp [publishLines, h, hok]
/-! ## Command line validation -/

theorem ContainsAny_wildcard (s : Bytes) :
    ContainsAny s [STAR, GT] = true ↔ STAR ∈ s ∨ GT ∈ s := by
  unfold ContainsAny
  rw [List.any_eq_true]
  constructor
  · rintro ⟨b, hb, hc⟩
    simp at hc
    rcases hc with rfl | rfl
    · exact Or.inl hb
    · exact Or.inr hb
  · rintro (h | h)
    · exact ⟨STAR, h, by simp⟩
    · exact ⟨GT, h, by simp⟩

/-- C1: `cmdLine` fails (ends the process instead of returning `nil`) if and only if the
subject is empty, or the subject contains `*` or `>` while `listen` is false. -/
theorem cmdLine_fails_iff (c : Context) :
    (∃ e, cmdLine c = Except.error e) ↔
      (c.subject = [] ∨ (c.listen = false ∧ (STAR ∈ c.subject ∨ GT ∈ c.subject))) := by
  unfold cmdLine
  by_cases hs : c.subject = []
  · simp [hs]
  · by_cases hl : c.listen = true
    · simp [hs, hl]
    · have hl2 : c.listen = false := by simpa using hl
      by_cases hw : ContainsAny c.subject [STAR, GT] = true
      · have := (ContainsAny_wildcard c.subject).mp hw
        simp [hs, hl2, hw, this]
      · have hn : ¬ (STAR ∈ c.subject ∨ GT ∈ c.subject) :=
          fun h => hw ((ContainsAny_wildcard c.subject).mpr h)
        simp [hs, hl2, hw, hn]

/-- C1 at the subjects `orders.*` and `orders.>` with `listen` set: `cmdLine` returns
`nil`. -/
theorem cmdLine_fails_iff_witness :
    (¬ ∃ e, cmdLine (listenOn [111, 114, 100, 101, 114, 115, 46, 42]) = Except.error e) ∧
    (¬ ∃ e, cmdLine (listenOn [111, 114, 100, 101, 114, 115, 46, 62]) = Except.error e) :=
  ⟨fun h => absurd ((cmdLine_fails_iff _).mp h) (by decide),
   fun h => absurd ((cmdLine_fails_iff _).mp h) (by decide)⟩

/-! ## Mode selection -/

/-- C2: once the connection is established, the run of `cat` shows the mode the selection
rule gives for (listen, message, buffered); in `Listen` mode no publish call is made, and
in the three publish modes no subscribe call is made. -/
theorem cat_selects_mode (g : Globals) (env : Env)
    (hn : env.natsConnectOk = true) (hs : env.stanConnectOk = true) :
    observedMode (cat g env).trace = some (selectMode g.listen g.message g.buffered) ∧
    (selectMode g.listen g.message g.buffered = Mode.Listen →
      publishes (cat g env).trace = []) ∧
    (selectMode g.listen g.message g.buffered ≠ Mode.Listen →
      subscribes (cat g env).trace = []) := by
  by_cases hl : g.listen = true
  · by_cases hv : g.verbose = true <;> by_cases hsub : env.subscribeOk = true <;>
      simp [cat, catSwitch, selectMode, hn, hs, hl, hv, hsub, Run.after, observedMode,
        publishes, publishes_append, publishes_callbacks]
  · have hl2 : g.listen = false := by simpa using hl
    by_cases hm : g.message = []
    · by_cases hb : g.buffered = true
      · obtain ⟨rest, hrest⟩ := observedMode_publishLines g env env.stdin.length
          (NewScanner env.stdin) 0
        have hsub := subscribes_publishLines g env (env.stdin.length + 1)
          (NewScanner env.stdin) 0
        rw [hrest] at hsub
        simp only [subscribes] at hsub
        have hcs : catSwitch g env
            = publishLines g env (env.stdin.length + 1) (NewScanner env.stdin) 0 := by
          simp [catSwitch, hl2, hm, hb]
        by_cases hv : g.verbose = true <;>
          cases hx : (publishLines g env (env.stdin.length + 1) (NewScanner env.stdin) 0).exit <;>
          by_cases hle : env.lastErrorNil = true <;>
          simp [cat, hcs, selectMode, hn, hs, hl2, hm, hb, hv, hx, hle, Run.after, hrest,
            observedMode, subscribes, subscribes_append, hsub]
      · by_cases hv : g.verbose = true <;> by_cases hp : env.publishOk 0 = true <;>
          by_cases hle : env.lastErrorNil = true <;>
          simp [cat, catSwitch, selectMode, hn, hs, hl2, hm, hb, hv, hp, hle, Run.after,
            observedMode, subscribes, ReadAll]
    · by_cases hv : g.verbose = true <;> by_cases hp : env.publishOk 0 = true <;>
        by_cases hle : env.lastErrorNil = true <;>
        simp [cat, catSwitch, selectMode, hn, hs, hl2, hm, hv, hp, hle, Run.after,
          observedMode, subscribes]
/-- C2 at a raw stdin publisher. -/
theorem cat_selects_mode_witness :
    (Env.quiet [0, 10] []).natsConnectOk = true ∧
    (Env.quiet [0, 10] []).stanConnectOk = true ∧
    observedMode (cat (publishTo [88] false []) (Env.quiet [0, 10] [])).trace
      = some Mode.PublishRawStdin :=
  ⟨rfl, rfl, (cat_selects_mode (publishTo [88] false []) (Env.quiet [0, 10] []) rfl rfl).1⟩

/-! ## Raw stdin publishing -/

theorem publishes_raw (g : Globals) (env : Env)
    (hl : g.listen = false) (hm : g.message = []) (hb : g.buffered = false)
    (hn : env.natsConnectOk = true) (hs : env.stanConnectOk = true) :
    publishes (cat g env).trace = [(g.subject, env.stdin)] := by
  by_cases hv : g.verbose = true <;> by_cases hp : env.publishOk 0 = true <;>
    by_cases hle : env.lastErrorNil = true <;>
    simp [cat, catSwitch, hn, hs, hl, hm, hb, hv, hp, hle, Run.after, publishes, ReadAll]

/-- C4: in raw stdin publish mode (listen false, message empty, buffered false), once the
connection is established, `cat` makes exactly one publish call, on the configured subject,
with the bytes of standard input as payload. -/
theorem cat_raw_publishes_stdin (g : Globals) (env : Env)
    (hl : g.listen = false) (hm : g.message = []) (hb : g.buffered = false)
    (hn : env.natsConnectOk = true) (hs : env.stanConnectOk = true) :
    publishes (cat g env).trace = [(g.subject, env.stdin)] :=
  publishes_raw g env hl hm hb hn hs

/-- C4 at an input holding a zero byte, a carriage return and line feeds. -/
theorem cat_raw_publishes_stdin_witness :
    publishes (cat (publishTo [88] false []) (Env.quiet [97, 10, 0, 13, 10, 98] [])).trace
      = [([88], [97, 10, 0, 13, 10, 98])] :=
  cat_raw_publishes_stdin (publishTo [88] false []) (Env.quiet [97, 10, 0, 13, 10, 98] [])
    rfl rfl rfl rfl rfl

/-! ## Explicit message -/

theorem Join_eq_intercalate (args : List Bytes) (sep : Bytes) :
    Join args sep = List.intercalate sep args := by
  induction args with
  | nil => rfl
  | cons a rest ih =>
    cases rest with
    | nil => simp [Join, List.intercalate]
    | cons b rest =>
      simp only [Join, ih]
      simp [List.intercalate, List.intersperse]

/-- C5: when `cmdLine` accepts a command line with listen unset and leaves a non-empty
message, that message is the `--message` value if there are no positional arguments and
the positional arguments joined with single spaces otherwise, in which case `buffered` is
set; and once the connection is established the program makes exactly one publish call,
with the message as payload, and never reads standard input. -/
theorem explicit_message (c : Context) (g : Globals) (env : Env)
    (hc : cmdLine c = Except.ok g) (hl : c.listen = false) (hm : g.message ≠ [])
    (hn : env.natsConnectOk = true) (hs : env.stanConnectOk = true) :
    g.message = (if c.args = [] then c.message else List.intercalate [SP] c.args) ∧
    (c.args ≠ [] → g.buffered = true) ∧
    publishes (main c env).trace = [(c.subject, g.message)] ∧
    stdinReads (main c env).trace = 0 := by
  have hmain : main c env = cat g env := by simp [main, hc]
  have hg : g.listen = false ∧ g.subject = c.subject ∧
      g.message = (if c.args = [] then c.message else List.intercalate [SP] c.args) ∧
      (c.args ≠ [] → g.buffered = true) := by
    unfold cmdLine at hc
    by_cases hsub : c.subject = []
    · simp [hsub] at hc
    · by_cases hw : ContainsAny c.subject [STAR, GT] = true
      · simp [hsub, hl, hw] at hc
      · by_cases ha : c.args = []
        · simp [hsub, hl, hw, ha] at hc
          subst hc
          simp [ha]
        · have hlen : 0 < c.args.length := List.length_pos.mpr ha
          simp [hsub, hl, hw, ha, hlen] at hc
          subst hc
          simp [ha, Join_eq_intercalate]
  obtain ⟨hgl, hgs, hgm, hgb⟩ := hg
  refine ⟨hgm, hgb, ?_, ?_⟩
  · rw [hmain, ← hgs]
    by_cases hv : g.verbose = true <;> by_cases hp : env.publishOk 0 = true <;>
      by_cases hle : env.lastErrorNil = true <;>
      simp [cat, catSwitch, hn, hs, hgl, hm, hv, hp, hle, Run.after, publishes]
  · rw [hmain]
    by_cases hv : g.verbose = true <;> by_cases hp : env.publishOk 0 = true <;>
      by_cases hle : env.lastErrorNil = true <;>
      simp [cat, catSwitch, hn, hs, hgl, hm, hv, hp, hle, Run.after, stdinReads]

/-- C5 at `stancat --subject greet hello world`: one publish of `hello world`, standard
input (which holds other bytes) untouched. -/
theorem explicit_message_witness :
    publishes (main (publishCmd [103, 114, 101, 101, 116] false []
        [[104, 101, 108, 108, 111], [119, 111, 114, 108, 100]]) (Env.quiet [120, 10] [])).trace
      = [([103, 114, 101, 101, 116],
          [104, 101, 108, 108, 111, 32, 119, 111, 114, 108, 100])] ∧
    stdinReads (main (publishCmd [103, 114, 101, 101, 116] false []
        [[104, 101, 108, 108, 111], [119, 111, 114, 108, 100]]) (Env.quiet [120, 10] [])).trace
      = 0 :=
  have h := explicit_message
    (publishCmd [103, 114, 101, 101, 116] false []
      [[104, 101, 108, 108, 111], [119, 111, 114, 108, 100]])
    (publishTo [103, 114, 101, 101, 116] true
      [104, 101, 108, 108, 111, 32, 119, 111, 114, 108, 100])
    (Env.quiet [120, 10] []) rfl rfl (by decide) rfl rfl
  ⟨h.2.2.1, h.2.2.2⟩
/-! ## Buffered stdin publishing -/

theorem dropCR_of_last_ne (l : Bytes) (h : l.getLast? ≠ some CR) : dropCR l = l := by
  simp [dropCR, h]

theorem encodeLines_append_fit (max : Nat) (lines : List Bytes) (rest : Bytes)
    (h : ∀ l ∈ lines, LF ∉ l ∧ l.length < max) :
    fitsFrom max 0 (encodeLines lines ++ rest) = fitsFrom max 0 rest := by
  induction lines with
  | nil => rfl
  | cons l lines ih =>
    have hl := h l (by simp)
    have ih2 := ih (fun x hx => h x (List.mem_cons_of_mem _ hx))
    simp only [encodeLines, List.append_assoc, List.cons_append]
    rw [fitsFrom_line _ _ _ hl.1, ih2]
    simp [hl.2]

theorem linesFrom_encodeLines_append (sf : Bool) (lines : List Bytes) (rest : Bytes)
    (h : ∀ l ∈ lines, LF ∉ l) :
    linesFrom sf [] (encodeLines lines ++ rest)
      = lines.map dropCR ++ linesFrom sf [] rest := by
  induction lines with
  | nil => rfl
  | cons l lines ih =>
    have hl := h l (by simp)
    have ih2 := ih (fun x hx => h x (List.mem_cons_of_mem _ hx))
    simp only [encodeLines, List.append_assoc, List.cons_append]
    rw [linesFrom_line _ _ _ hl, ih2]
    simp

theorem linesFrom_ne_nil (sf : Bool) (cur l : Bytes) (h : cur ++ l ≠ []) :
    linesFrom sf cur l ≠ [] := by
  rcases split_at_first LF l with hl | ⟨a, rest, rfl, hl⟩
  · rw [linesFrom_final sf l hl]
    simp [h]
  · rw [linesFrom_line sf a rest hl]
    simp

theorem length_le_encodeLines (lines : List Bytes) :
    lines.length ≤ (encodeLines lines).length := by
  induction lines with
  | nil => simp
  | cons l lines ih => simp [encodeLines]; omega

theorem publishLines_encodeLines (g : Globals) (env : Env) (hok : ∀ i, env.publishOk i = true)
    (rest : Bytes) :
    ∀ (lines : List Bytes) (fuel : Nat) (s : Scanner) (count : Nat),
      s.r = encodeLines lines ++ rest →
      (∀ l ∈ lines, LF ∉ l ∧ l.length < s.maxTokenSize) →
      ∃ s1 : Scanner, s1.r = rest ∧ s1.maxTokenSize = s.maxTokenSize ∧
        publishLines g env (lines.length + fuel) s count
          = (publishLines g env fuel s1 (count + lines.length)).after
              ((lines.map (fun l => lineEvents g.subject (dropCR l))).flatten) := by
  intro lines
  induction lines with
  | nil =>
    intro fuel s count hr _
    refine ⟨s, by simpa [encodeLines] using hr, rfl, ?_⟩
    simp [Run.after]
  | cons l lines ih =>
    intro fuel s count hr h
    have hl := h l (by simp)
    have hr2 : s.r = l ++ LF :: (encodeLines lines ++ rest) := by
      simpa [encodeLines] using hr
    obtain ⟨s1, h1, h2, h3⟩ := ih fuel
      { s with r := encodeLines lines ++ rest, token := dropCR l } (count + 1) rfl
      (fun x hx => h x (List.mem_cons_of_mem _ hx))
    refine ⟨s1, h1, h2, ?_⟩
    have hf : (l :: lines).length + fuel = (lines.length + fuel) + 1 := by
      simp; omega
    rw [hf, publishLines_token g env _ s _ count (Scan_line s l _ hr2 hl.1 hl.2) (hok count),
      h3]
    simp [Run.after, Nat.add_comm 1, Nat.add_assoc]

theorem publishes_lineEvents (subject : Bytes) (ls : List Bytes) :
    publishes ((ls.map (lineEvents subject)).flatten) = ls.map (fun l => (subject, l)) := by
  induction ls with
  | nil => rfl
  | cons l ls ih => simp [lineEvents, publishes, ih]

theorem publishes_loopEnd (g : Globals) (count : Nat) : publishes (loopEnd g count) = [] := by
  by_cases hv : g.verbose = true <;> simp [loopEnd, publishes, hv]

theorem catSwitch_buffered (g : Globals) (env : Env)
    (hl : g.listen = false) (hm : g.message = []) (hb : g.buffered = true) :
    catSwitch g env = publishLines g env (env.stdin.length + 1) (NewScanner env.stdin) 0 := by
  simp [catSwitch, hl, hm, hb]

theorem cat_of_returned (g : Globals) (env : Env) (t : List Event)
    (hn : env.natsConnectOk = true) (hs : env.stanConnectOk = true)
    (h : catSwitch g env = { trace := t, exit := Exit.returned }) :
    publishes (cat g env).trace = publishes t ∧
    (cat g env).exit = (if env.lastErrorNil then Exit.returned else Exit.fatal) ∧
    closes (cat g env).trace = closes t + (if env.lastErrorNil then 1 else 0) := by
  by_cases hv : g.verbose = true <;> by_cases hle : env.lastErrorNil = true <;>
    simp [cat, h, hn, hs, hv, hle, Run.after, publishes, publishes_append, closes,
      closes_append]

theorem publishes_fit (g : Globals) (env : Env)
    (hl : g.listen = false) (hm : g.message = []) (hb : g.buffered = true)
    (hn : env.natsConnectOk = true) (hs : env.stanConnectOk = true)
    (hok : ∀ i, env.publishOk i = true) (hfit : LinesFit env.stdin) :
    publishes (cat g env).trace = (strippedLines env.stdin).map (fun l => (g.subject, l)) ∧
    (cat g env).exit = (if env.lastErrorNil then Exit.returned else Exit.fatal) := by
  have hloop := publishLines_fit g env hok env.stdin.length (env.stdin.length + 1)
    (NewScanner env.stdin) 0 (Nat.le_refl _) (Nat.lt_succ_self _) hfit
  rw [← catSwitch_buffered g env hl hm hb] at hloop
  obtain ⟨h1, h2, _⟩ := cat_of_returned g env _ hn hs hloop
  refine ⟨?_, h2⟩
  rw [h1, publishes_append, publishes_lineEvents, publishes_loopEnd]
  simp [strippedLines, NewScanner]

/-- C3, amended: in buffered stdin publish mode, with the connection established and every
publish call succeeding, for every input whose lines are all shorter than
`bufio.MaxScanTokenSize` bytes the publish calls are the lines of the input, in order, on
the configured subject (a carriage return before the line feed stripped, and also one at
the end of an unterminated final segment), and `cat` leaves the loop normally. -/
theorem buffered_publishes_lines (g : Globals) (env : Env)
    (hl : g.listen = false) (hm : g.message = []) (hb : g.buffered = true)
    (hn : env.natsConnectOk = true) (hs : env.stanConnectOk = true)
    (hok : ∀ i, env.publishOk i = true) (hfit : LinesFit env.stdin) :
    publishes (cat g env).trace = (strippedLines env.stdin).map (fun l => (g.subject, l)) ∧
    (cat g env).exit = (if env.lastErrorNil then Exit.returned else Exit.fatal) :=
  publishes_fit g env hl hm hb hn hs hok hfit
/-- C3 at an input with a CR/LF line, an empty line and an unterminated final segment. -/
theorem buffered_publishes_lines_witness :
    LinesFit [97, 10, 98, 13, 10, 10, 99] ∧
    publishes (cat (publishTo [88] true []) (Env.quiet [97, 10, 98, 13, 10, 10, 99] [])).trace
      = [([88], [97]), ([88], [98]), ([88], []), ([88], [99])] :=
  ⟨by decide,
   (buffered_publishes_lines (publishTo [88] true [])
      (Env.quiet [97, 10, 98, 13, 10, 10, 99] []) rfl rfl rfl rfl rfl (fun _ => rfl)
      (by decide)).1⟩

theorem longLine_length : longLine.length = MaxScanTokenSize :=
  List.length_replicate _ _

theorem LF_not_mem_longLine : LF ∉ longLine :=
  fun h => absurd (List.eq_of_mem_replicate h) (by decide)

theorem longLine_last : longLine.getLast? ≠ some CR :=
  fun h => absurd (List.eq_of_mem_replicate (List.mem_of_getLast?_eq_some h)) (by decide)

theorem longLine_take (rest : Bytes) :
    (longLine ++ rest).take MaxScanTokenSize = longLine := by
  rw [List.take_append_of_le_length (Nat.le_of_eq longLine_length.symm),
    List.take_of_length_le (Nat.le_of_eq longLine_length)]

theorem publishes_too_long (g : Globals) (env : Env) (lines : List Bytes) (rest : Bytes)
    (hl : g.listen = false) (hm : g.message = []) (hb : g.buffered = true)
    (hn : env.natsConnectOk = true) (hs : env.stanConnectOk = true)
    (hok : ∀ i, env.publishOk i = true)
    (hin : env.stdin = encodeLines lines ++ rest)
    (hlines : ∀ l ∈ lines, LF ∉ l ∧ l.length < MaxScanTokenSize)
    (hlong : MaxScanTokenSize ≤ rest.length) (hnl : LF ∉ rest.take MaxScanTokenSize) :
    publishes (cat g env).trace = (lines.map dropCR).map (fun l => (g.subject, l)) ∧
    (cat g env).exit = (if env.lastErrorNil then Exit.returned else Exit.fatal) := by
  obtain ⟨k, hk⟩ : ∃ k, env.stdin.length + 1 = lines.length + (k + 1) := by
    have := length_le_encodeLines lines
    refine ⟨env.stdin.length - lines.length, ?_⟩
    rw [hin, List.length_append]
    omega
  obtain ⟨s1, h1, h2, h3⟩ := publishLines_encodeLines g env hok rest lines (k + 1)
    (NewScanner env.stdin) 0 hin hlines
  have h2b : s1.maxTokenSize = MaxScanTokenSize := h2
  rw [publishLines_stop g env k s1 _ (Scan_too_long s1 (by rw [h1, h2b]; exact hlong)
    (by rw [h1, h2b]; exact hnl)), ← hk, ← catSwitch_buffered g env hl hm hb] at h3
  obtain ⟨p1, p2, _⟩ := cat_of_returned g env _ hn hs h3
  refine ⟨?_, p2⟩
  rw [p1, publishes_append, publishes_loopEnd, List.append_nil, ← publishes_lineEvents,
    List.map_map]
  rfl

/-- C3 as stated fails: an input made of one line of `bufio.MaxScanTokenSize` bytes and its
line feed has one line and no publish call is made; the input `a CR` has the line `a CR`
and the payload published is `a`. -/
theorem buffered_publishes_lines_counterexample :
    (specLines (longLine ++ [LF]) = [longLine] ∧
     publishes (cat (publishTo [88] true []) (Env.quiet (longLine ++ [LF]) [])).trace = []) ∧
    (specLines [97, 13] = [[97, 13]] ∧
     publishes (cat (publishTo [88] true []) (Env.quiet [97, 13] [])).trace
       = [([88], [97])]) := by
  refine ⟨⟨?_, ?_⟩, by decide, by decide⟩
  · have h := linesFrom_line false longLine [] LF_not_mem_longLine []
    simp only [List.nil_append] at h
    rw [specLines, h, dropCR_of_last_ne _ longLine_last]
    rfl
  · exact (publishes_too_long (publishTo [88] true []) (Env.quiet (longLine ++ [LF]) [])
      [] (longLine ++ [LF]) rfl rfl rfl rfl rfl (fun _ => rfl) rfl
      (fun _ h => absurd h (List.not_mem_nil _))
      (by rw [List.length_append, longLine_length]; exact Nat.le_add_right _ _)
      (by rw [longLine_take]; exact LF_not_mem_longLine)).1

/-! ## Silent truncation -/

/-- C10: in buffered stdin publish mode with every transport call succeeding, when the
input is a sequence of lines shorter than `bufio.MaxScanTokenSize` followed by bytes `rest`
whose first `bufio.MaxScanTokenSize` bytes hold no line feed, `cat` returns normally (no
fatal exit), the publish calls are exactly the lines before `rest`, and the input has
further lines (those of `rest`), none of which is published. -/
theorem scanner_stops_at_long_line (g : Globals) (env : Env) (lines : List Bytes)
    (rest : Bytes)
    (hl : g.listen = false) (hm : g.message = []) (hb : g.buffered = true)
    (hn : env.natsConnectOk = true) (hs : env.stanConnectOk = true)
    (hok : ∀ i, env.publishOk i = true) (hle : env.lastErrorNil = true)
    (hin : env.stdin = encodeLines lines ++ rest)
    (hlines : ∀ l ∈ lines, LF ∉ l ∧ l.length < MaxScanTokenSize)
    (hlong : MaxScanTokenSize ≤ rest.length) (hnl : LF ∉ rest.take MaxScanTokenSize) :
    (cat g env).exit = Exit.returned ∧
    publishes (cat g env).trace = (lines.map dropCR).map (fun l => (g.subject, l)) ∧
    specLines env.stdin = lines.map dropCR ++ specLines rest ∧
    specLines rest ≠ [] ∧
    (publishes (cat g env).trace).length < (specLines env.stdin).length := by
  obtain ⟨h1, h2⟩ := publishes_too_long g env lines rest hl hm hb hn hs hok hin hlines
    hlong hnl
  have hsp : specLines env.stdin = lines.map dropCR ++ specLines rest := by
    rw [hin]
    exact linesFrom_encodeLines_append false lines rest (fun l h => (hlines l h).1)
  have hne : rest ≠ [] := by
    intro h
    rw [h] at hlong
    exact absurd hlong (by decide)
  have hrest : specLines rest ≠ [] := linesFrom_ne_nil false [] rest (by simpa using hne)
  refine ⟨by simpa [hle] using h2, h1, hsp, hrest, ?_⟩
  rw [h1, hsp]
  have : 0 < (specLines rest).length := List.length_pos.mpr hrest
  simp
  omega

/-- C10 at the input `a LF`, a line of `bufio.MaxScanTokenSize + 1` bytes, `LF b LF`: the
run returns normally and only `a` is published. -/
theorem scanner_stops_at_long_line_witness :
    (cat (publishTo [88] true []) (Env.quiet ([97, 10] ++ (longLine ++ [97, 10, 98, 10])) [])).exit
      = Exit.returned ∧
    publishes
      (cat (publishTo [88] true []) (Env.quiet ([97, 10] ++ (longLine ++ [97, 10, 98, 10])) [])).trace
      = [([88], [97])] :=
  have h := scanner_stops_at_long_line (publishTo [88] true [])
    (Env.quiet ([97, 10] ++ (longLine ++ [97, 10, 98, 10])) []) [[97]] (longLine ++ [97, 10, 98, 10])
    rfl rfl rfl rfl rfl (fun _ => rfl) rfl rfl
    (fun l h => by
      rw [List.mem_singleton] at h
      subst h
      exact ⟨by decide, by decide⟩)
    (by rw [List.length_append, longLine_length]; exact Nat.le_add_right _ _)
    (by rw [longLine_take]; exact LF_not_mem_longLine)
  ⟨h.1, h.2.1⟩
/-! ## The subscription callback -/

theorem stdoutBytes_onMessage (g : Globals) (m : Msg) :
    stdoutBytes (onMessage g m) = if g.buffered then m.Data ++ [LF] else m.Data := by
  by_cases hv : g.verbose = true <;> by_cases hb : g.buffered = true <;>
    by_cases hd : m.Data.length > 0 <;>
    simp [onMessage, stdoutBytes, stdoutBytes_append, hv, hb, hd, Println, WriteTo]
  all_goals simp at hd; simp [hd]

theorem stdoutBytes_callbacks (g : Globals) (ms : List Msg) :
    stdoutBytes ((ms.map (onMessage g)).flatten)
      = (ms.map (fun m => if g.buffered then m.Data ++ [LF] else m.Data)).flatten := by
  induction ms with
  | nil => rfl
  | cons m ms ih => simp [stdoutBytes_append, stdoutBytes_onMessage, ih]

theorem stdoutBytes_listen (g : Globals) (env : Env) (hl : g.listen = true)
    (hn : env.natsConnectOk = true) (hs : env.stanConnectOk = true)
    (hsub : env.subscribeOk = true) :
    stdoutBytes (cat g env).trace
      = (env.delivered.map (fun m => if g.buffered then m.Data ++ [LF] else m.Data)).flatten := by
  by_cases hv : g.verbose = true <;>
    simp [cat, catSwitch, hl, hn, hs, hsub, hv, Run.after, stdoutBytes, stdoutBytes_append,
      stdoutBytes_callbacks]

theorem flatten_encode (lines : List Bytes) (subject : Bytes) :
    ((deliver (lines.map (fun l => (subject, l)))).map (fun m => m.Data ++ [LF])).flatten
      = encodeLines lines := by
  induction lines with
  | nil => rfl
  | cons l lines ih =>
    simp only [deliver, List.map_map, List.map_cons, List.flatten_cons] at ih ⊢
    rw [ih]
    simp [encodeLines]

theorem flatten_data (ps : List (Bytes × Bytes)) :
    ((deliver ps).map (fun m => m.Data)).flatten = (ps.map Prod.snd).flatten := by
  simp [deliver, List.map_map, Function.comp_def]

/-! ## Round trips -/

/-- C6, amended: for every list of lines shorter than `bufio.MaxScanTokenSize` bytes in
which no line contains a line feed or ends with a carriage return, the buffered stdin
publisher fed `l1 LF .. ln LF` publishes the payloads `l1, .., ln`, and a buffered listener
to which these payloads are delivered in order writes `l1 LF .. ln LF` to standard output,
the bytes of the input. -/
theorem buffered_round_trip (lines : List Bytes) (gP gL : Globals) (envP envL : Env)
    (hlines : ∀ l ∈ lines,
      LF ∉ l ∧ l.getLast? ≠ some CR ∧ l.length < MaxScanTokenSize)
    (hin : envP.stdin = encodeLines lines)
    (hl : gP.listen = false) (hm : gP.message = []) (hb : gP.buffered = true)
    (hn : envP.natsConnectOk = true) (hs : envP.stanConnectOk = true)
    (hok : ∀ i, envP.publishOk i = true)
    (hlL : gL.listen = true) (hbL : gL.buffered = true)
    (hnL : envL.natsConnectOk = true) (hsL : envL.stanConnectOk = true)
    (hsubL : envL.subscribeOk = true)
    (hdel : envL.delivered = deliver (publishes (cat gP envP).trace)) :
    (publishes (cat gP envP).trace).map Prod.snd = lines ∧
    stdoutBytes (cat gL envL).trace = encodeLines lines ∧
    stdoutBytes (cat gL envL).trace = envP.stdin := by
  have hfit : LinesFit envP.stdin := by
    have h := encodeLines_append_fit MaxScanTokenSize lines []
      (fun l h => ⟨(hlines l h).1, (hlines l h).2.2⟩)
    rw [List.append_nil] at h
    rw [LinesFit, hin, h]
    decide
  have hstr : strippedLines envP.stdin = lines := by
    have h := linesFrom_encodeLines_append true lines [] (fun l h => (hlines l h).1)
    rw [List.append_nil] at h
    rw [strippedLines, hin, h]
    simp only [linesFrom, if_true, List.append_nil]
    exact (List.map_congr_left (fun l h => dropCR_of_last_ne l (hlines l h).2.1)).trans
      (List.map_id _)
  have hpub := (publishes_fit gP envP hl hm hb hn hs hok hfit).1
  rw [hstr] at hpub
  have hout : stdoutBytes (cat gL envL).trace = encodeLines lines := by
    rw [stdoutBytes_listen gL envL hlL hnL hsL hsubL, hdel, hpub]
    simp only [hbL, if_true]
    exact flatten_encode lines gP.subject
  refine ⟨?_, hout, by rw [hout, hin]⟩
  rw [hpub]
  simp [List.map_map, Function.comp_def]

/-- C6 at the lines `a`, `b`, `c`. -/
theorem buffered_round_trip_witness :
    stdoutBytes (cat (listenTo [88] true) (Env.quiet []
      (deliver (publishes
        (cat (publishTo [88] true []) (Env.quiet (encodeLines [[97], [98], [99]]) [])).trace)))).trace
      = [97, 10, 98, 10, 99, 10] :=
  (buffered_round_trip [[97], [98], [99]] (publishTo [88] true []) (listenTo [88] true)
    (Env.quiet (encodeLines [[97], [98], [99]]) [])
    (Env.quiet [] (deliver (publishes
      (cat (publishTo [88] true []) (Env.quiet (encodeLines [[97], [98], [99]]) [])).trace)))
    (by decide) rfl rfl rfl rfl rfl rfl (fun _ => rfl) rfl rfl rfl rfl rfl rfl).2.1

theorem encodeLines_longLine : encodeLines [longLine] = longLine ++ [LF] := by
  simp only [encodeLines]

theorem publishes_longLine :
    publishes (cat (publishTo [88] true []) (Env.quiet (encodeLines [longLine]) [])).trace
      = [] := by
  rw [encodeLines_longLine]
  exact (publishes_too_long (publishTo [88] true []) (Env.quiet (longLine ++ [LF]) [])
    [] (longLine ++ [LF]) rfl rfl rfl rfl rfl (fun _ => rfl) rfl
    (fun _ h => absurd h (List.not_mem_nil _))
    (by rw [List.length_append, longLine_length]; exact Nat.le_add_right _ _)
    (by rw [longLine_take]; exact LF_not_mem_longLine)).1

/-- C6 as stated fails: the one line of `bufio.MaxScanTokenSize` bytes `a` contains no
line feed and does not end with a carriage return, yet the round trip of the input made
of that line and its line feed writes nothing to standard output. -/
theorem buffered_round_trip_counterexample :
    (∀ l ∈ [longLine], LF ∉ l ∧ l.getLast? ≠ some CR) ∧
    encodeLines [longLine] ≠ [] ∧
    stdoutBytes (cat (listenTo [88] true) (Env.quiet []
      (deliver (publishes
        (cat (publishTo [88] true []) (Env.quiet (encodeLines [longLine]) [])).trace)))).trace
      = [] := by
  refine ⟨?_, ?_, ?_⟩
  · intro l h
    rw [List.mem_singleton] at h
    subst h
    exact ⟨LF_not_mem_longLine, longLine_last⟩
  · rw [encodeLines_longLine]
    exact List.append_ne_nil_of_right_ne_nil _ (List.cons_ne_nil _ _)
  · rw [publishes_longLine]
    rfl

/-- C7: a raw listener writes to standard output the concatenation of the payloads it
receives, in order, with nothing added; and when the payloads of a raw stdin publisher are
delivered to it, the output is the publisher's standard input, byte for byte. -/
theorem raw_round_trip (gL : Globals) (envL : Env)
    (hlL : gL.listen = true) (hbL : gL.buffered = false)
    (hnL : envL.natsConnectOk = true) (hsL : envL.stanConnectOk = true)
    (hsubL : envL.subscribeOk = true) :
    stdoutBytes (cat gL envL).trace = (envL.delivered.map (fun m => m.Data)).flatten ∧
    ∀ (gP : Globals) (envP : Env), gP.listen = false → gP.message = [] →
      gP.buffered = false → envP.natsConnectOk = true → envP.stanConnectOk = true →
      envL.delivered = deliver (publishes (cat gP envP).trace) →
      stdoutBytes (cat gL envL).trace = envP.stdin := by
  have h := stdoutBytes_listen gL envL hlL hnL hsL hsubL
  simp only [hbL, Bool.false_eq_true, if_false] at h
  refine ⟨h, ?_⟩
  intro gP envP hl hm hb hn hs hdel
  rw [h, hdel, publishes_raw gP envP hl hm hb hn hs]
  simp [deliver]

/-- C7 at a blob holding line feeds and a zero byte. -/
theorem raw_round_trip_witness :
    stdoutBytes (cat (listenTo [88] false) (Env.quiet []
      (deliver (publishes
        (cat (publishTo [88] false []) (Env.quiet [1, 10, 0, 10, 255] [])).trace)))).trace
      = [1, 10, 0, 10, 255] :=
  (raw_round_trip (listenTo [88] false) (Env.quiet []
      (deliver (publishes
        (cat (publishTo [88] false []) (Env.quiet [1, 10, 0, 10, 255] [])).trace)))
    rfl rfl rfl rfl rfl).2 (publishTo [88] false []) (Env.quiet [1, 10, 0, 10, 255] [])
    rfl rfl rfl rfl rfl rfl
/-! ## Release of the connection -/

/-- C8 at a failing publish call, at a failing `stan.Connect` and at a successful run: the
connection is opened once in each; the two fatal exits end the run without a `Close` call,
the normal return is preceded by one. -/
theorem fatal_exit_skips_close :
    (cat (publishTo [88] false [104, 105]) (Env.publishFails [])
        = { trace := [Event.natsConnect [], Event.stanConnect [] [],
                      Event.publish [88] [104, 105]],
            exit := Exit.fatal } ∧
      closes (cat (publishTo [88] false [104, 105]) (Env.publishFails [])).trace = 0) ∧
    (cat (publishTo [88] false [104, 105]) (Env.stanFails [])
        = { trace := [Event.natsConnect [], Event.stanConnect [] []], exit := Exit.fatal } ∧
      closes (cat (publishTo [88] false [104, 105]) (Env.stanFails [])).trace = 0) ∧
    cat (publishTo [88] false [104, 105]) (Env.quiet [] [])
      = { trace := [Event.natsConnect [], Event.stanConnect [] [],
                    Event.publish [88] [104, 105], Event.lastError, Event.close],
          exit := Exit.returned } := by
  decide

/-! ## Line terminator of the buffered listener -/

/-- C9 at the payload `a`: the buffered listener writes `a LF`, two bytes, and for every
payload the callback writes the payload followed by the single byte LF. -/
theorem buffered_listen_writes_LF :
    stdoutBytes (cat (listenTo [88] true)
      (Env.quiet [] [{ Subject := [88], Data := [97] }])).trace = [97, 10] ∧
    ∀ (g : Globals) (m : Msg), g.buffered = true →
      stdoutBytes (onMessage g m) = m.Data ++ [LF] := by
  refine ⟨by decide, ?_⟩
  intro g m hb
  rw [stdoutBytes_onMessage, hb]
  rfl
/-! ## Opening and closing on every run -/

theorem opens_closes_onMessage (g : Globals) (m : Msg) :
    opens (onMessage g m) = 0 ∧ closes (onMessage g m) = 0 := by
  by_cases hv : g.verbose = true <;> by_cases hb : g.buffered = true <;>
    by_cases hd : m.Data.length > 0 <;>
    simp [onMessage, opens, closes, hv, hb, hd]

theorem opens_closes_callbacks (g : Globals) (ms : List Msg) :
    opens ((ms.map (onMessage g)).flatten) = 0 ∧
    closes ((ms.map (onMessage g)).flatten) = 0 := by
  induction ms with
  | nil => exact ⟨rfl, rfl⟩
  | cons m ms ih =>
    have h := opens_closes_onMessage g m
    simp [opens_append, closes_append, h.1, h.2, ih.1, ih.2]

theorem opens_closes_publishLines (g : Globals) (env : Env) :
    ∀ (fuel : Nat) (s : Scanner) (count : Nat),
      opens (publishLines g env fuel s count).trace = 0 ∧
      closes (publishLines g env fuel s count).trace = 0 := by
  intro fuel
  induction fuel with
  | zero => intro s count; exact ⟨rfl, rfl⟩
  | succ fuel ih =>
    intro s count
    rcases h : s.Scan with ⟨b, s1⟩
    cases b
    · rw [publishLines_stop g env fuel s count (by rw [h])]
      by_cases hv : g.verbose = true <;> simp [loopEnd, opens, closes, hv]
    · by_cases hok : env.publishOk count = true
      · rw [publishLines_token g env fuel s s1 count h hok]
        simp [Run.after, lineEvents, opens, closes, ih]
      · simp [publishLines, h, hok, opens, closes]

theorem opens_closes_catSwitch (g : Globals) (env : Env) :
    opens (catSwitch g env).trace = 0 ∧ closes (catSwitch g env).trace = 0 := by
  by_cases hl : g.listen = true
  · have h := opens_closes_callbacks g env.delivered
    by_cases hv : g.verbose = true <;> by_cases hsub : env.subscribeOk = true <;>
      simp [catSwitch, hl, hv, hsub, opens, closes, opens_append, closes_append, h.1, h.2]
  · have hl2 : g.listen = false := by simpa using hl
    by_cases hm : g.message = []
    · by_cases hb : g.buffered = true
      · rw [catSwitch_buffered g env hl2 hm hb]
        exact opens_closes_publishLines g env _ _ _
      · by_cases hv : g.verbose = true <;> by_cases hp : env.publishOk 0 = true <;>
          simp [catSwitch, hl2, hm, hb, hv, hp, opens, closes]
    · by_cases hv : g.verbose = true <;> by_cases hp : env.publishOk 0 = true <;>
        simp [catSwitch, hl2, hm, hv, hp, opens, closes]

/-- On every run of `cat` the transport connection is opened exactly once, and `Close` is
called once when `cat` returns normally and not at all on any other way out. -/
theorem opened_once_closed_on_return (g : Globals) (env : Env) :
    opens (cat g env).trace = 1 ∧
    closes (cat g env).trace = (if (cat g env).exit = Exit.returned then 1 else 0) := by
  have h := opens_closes_catSwitch g env
  by_cases hn : env.natsConnectOk = true <;> by_cases hs : env.stanConnectOk = true <;>
    by_cases hv : g.verbose = true <;> by_cases hle : env.lastErrorNil = true <;>
    cases hx : (catSwitch g env).exit <;>
    simp [cat, hn, hs, hv, hle, hx, Run.after, opens, closes, opens_append, closes_append,
      h.1, h.2]

end Stancat
